import Mathlib

/-!
Shallow embedding of the trusted core of the ContactDiscoveryService enclave
(`src/enclave/cds_enclave/src/service/main.rs`), together with theorems about
the rate-limit state machine, phone hashing, request decoding and the
terminate/reply dispatch.

Machine integers are modelled as `Nat` with explicit `% 2 ^ w` where Rust
overflow semantics matter.  Byte slabs are `List Nat`.  External collaborators
that the repository treats as opaque (AES-GCM, SHA-1, SHA-256, the hardware
RNG, `ratelimit_set_add` / `ratelimit_set_size`, `hash_lookup`) are modelled
as explicit oracle parameters or, where the claims need concrete behaviour,
as definitions modelled from the spec's stated contract.
-/

namespace CDS

/-- Status codes returned by the enclave service (`SgxStatus` in the source).
Only the codes the service itself produces are modelled. -/
inductive SgxStatus where
  | SGX_ERROR_INVALID_PARAMETER
  | SGX_ERROR_INVALID_STATE
  | SGX_ERROR_UNEXPECTED
  | CDS_ERROR_INVALID_REQUEST_SIZE
  | CDS_ERROR_QUERY_COMMITMENT_MISMATCH
  | CDS_ERROR_INVALID_RATE_LIMIT_STATE
  | CDS_ERROR_RATE_LIMIT_EXCEEDED
  deriving DecidableEq, Repr

export SgxStatus (SGX_ERROR_INVALID_PARAMETER SGX_ERROR_INVALID_STATE
  SGX_ERROR_UNEXPECTED CDS_ERROR_INVALID_REQUEST_SIZE
  CDS_ERROR_QUERY_COMMITMENT_MISMATCH CDS_ERROR_INVALID_RATE_LIMIT_STATE
  CDS_ERROR_RATE_LIMIT_EXCEEDED)

/-- Little-endian 4-byte encoding of a `u32` value (`u32::to_le_bytes`). -/
def u32toLE (n : Nat) : List Nat :=
  [n % 256, n / 256 % 256, n / 256 ^ 2 % 256, n / 256 ^ 3 % 256]

/-- Little-endian 8-byte encoding of a `u64` value (`u64::to_le_bytes`). -/
def u64toLE (n : Nat) : List Nat :=
  [n % 256, n / 256 % 256, n / 256 ^ 2 % 256, n / 256 ^ 3 % 256,
   n / 256 ^ 4 % 256, n / 256 ^ 5 % 256, n / 256 ^ 6 % 256, n / 256 ^ 7 % 256]

/-- Read a list of bytes as a little-endian natural number
(`u32::from_le_bytes` / `u64::from_ne_bytes` on a little-endian target). -/
def bytesToNatLE : List Nat → Nat
  | [] => 0
  | b :: rest => b + 256 * bytesToNatLE rest

/-- Read the first four bytes as a little-endian `u32`. -/
def u32fromLE (l : List Nat) : Nat := bytesToNatLE (l.take 4)

/-- Read the first eight bytes as a little-endian `u64`. -/
def u64fromLE (l : List Nat) : Nat := bytesToNatLE (l.take 8)

/-- Split a list into consecutive chunks of at most `m` elements
(`slice::chunks`).  The fuel argument of the auxiliary function is the list
length, so the definition is structural. -/
def chunksOfAux (m : Nat) : Nat → List Nat → List (List Nat)
  | 0, _ => []
  | _, [] => []
  | fuel + 1, l => l.take m :: chunksOfAux m fuel (l.drop m)

/-- Consecutive chunks of at most `m` elements of a list (`slice::chunks`). -/
def chunksOf (m : Nat) (l : List Nat) : List (List Nat) :=
  chunksOfAux m l.length l

/-- Modelled from the spec: the external `ratelimit_set` primitive
(`crate::ffi::ratelimit_set`, not under `src/`).  The slab is a sequence of
8-byte slots; an entry is stored as its 8-byte little-endian encoding in the
first all-zero slot, and an entry already present is not duplicated.  The
exact probing strategy is left open by the spec; this model realises the
stated contract (per-entry idempotent insert, distinct-membership count). -/
def insertEntry : List (List Nat) → List Nat → List (List Nat)
  | [], _ => []
  | c :: cs, e => if c.all (· == 0) then e :: cs else c :: insertEntry cs e

/-- Modelled from the spec: insert one entry unless already present. -/
def addEntry (chunks : List (List Nat)) (e : List Nat) : List (List Nat) :=
  if e ∈ chunks then chunks else insertEntry chunks e

/-- Modelled from the spec: `ratelimit_set_add(slots, entries)` inserts each
entry into the set represented by `slots`, idempotently per entry. -/
def ratelimit_set_add (slots : List Nat) (phones : List Nat) : List Nat :=
  List.flatten (phones.foldl (fun ch p => addEntry ch (u64toLE p)) (chunksOf 8 slots))

/-- Modelled from the spec: `ratelimit_set_size(slots)` reports the number of
distinct entries currently stored (non-zero slots in this model). -/
def ratelimit_set_size (slots : List Nat) : Nat :=
  ((chunksOf 8 slots).filter (fun c => !(c.all (· == 0)))).length

/-- AES-GCM as the source uses it, as an oracle structure: the source treats
the cipher as an external black box (`sgxsd_ffi::AesGcmKey`).  `encrypt` and
`decrypt` may fail with a status, as the Rust wrappers do. -/
structure GcmCrypto where
  keyNew : List Nat → Except SgxStatus Nat
  encrypt : Nat → List Nat → List Nat → Except SgxStatus (List Nat × List Nat)
  decrypt : Nat → List Nat → List Nat → List Nat → Except SgxStatus (List Nat)

/-- Size in bytes of an AES-GCM MAC (`AesGcmMac::default().data.len()`). -/
def AES_GCM_MAC_SIZE : Nat := 16

/-- Size in bytes of an AES-GCM key (`AesGcmKey::len()`, `SGXSD_AES_GCM_KEY_SIZE`). -/
def AES_GCM_KEY_SIZE : Nat := 32

/-- Size in bytes of the commitment nonce prefix (`COMMITMENT_NONCE_SIZE`). -/
def COMMITMENT_NONCE_SIZE : Nat := 32

/-- Constant-time remainder (`CtU64::rem_assign` from `crate::ffi::cttk`).
Division by zero keeps the dividend; the result is never observed on a path
where the divisor is zero in the claims proved below. -/
def ctRem (x y : Nat) : Nat := x % y

/-- Per-client in-enclave rate-limit cell (`RatelimitState`): a monotonic
nonce (`NonZeroU32`) and an AES-GCM key.  The key is abstract. -/
structure RatelimitState where
  nonce : Nat
  key : Nat
  deriving DecidableEq, Repr

/-- Derivation of the 12-byte AES-GCM IV from the cell's nonce
(`RatelimitState::get_iv`): first four bytes are the nonce in little-endian,
the remaining eight bytes are zero. -/
def RatelimitState.get_iv (st : RatelimitState) : List Nat :=
  u32toLE st.nonce ++ List.replicate 8 0

/-- Layout over the plaintext slab (`RatelimitStateData`): first 4 bytes hold
the little-endian `u32` size limit, the rest is `ratelimit_set` storage. -/
def size_limit_data_len : Nat := 4

/-- Effective slot count (`RatelimitStateData::slot_count`).  The source
computes `(len - 4) / 8` with unchecked `usize` subtraction (wrapping in a
release build), saturating-multiplies by 3, divides by 4 and casts to `u32`. -/
def slot_count (data : List Nat) : Nat :=
  let slots_data_len := (data.length + 2 ^ 64 - size_limit_data_len) % 2 ^ 64
  let slot_count_raw := slots_data_len / 8
  min (slot_count_raw * 3) (2 ^ 64 - 1) / 4 % 2 ^ 32

/-- Write a fresh random size limit (`RatelimitStateData::set_size_limit`):
draw 4 RNG bytes, reduce modulo `range` in constant time, saturating-add
`lower_limit_inclusive` (as `u32`), and store little-endian into the first 4
bytes; fails with `CDS_ERROR_INVALID_RATE_LIMIT_STATE` when the slab is
shorter than 4 bytes. -/
def set_size_limit (data : List Nat) (randBytes : List Nat)
    (lower_limit_inclusive range : Nat) : Except SgxStatus (List Nat) :=
  if data.length < size_limit_data_len then
    .error CDS_ERROR_INVALID_RATE_LIMIT_STATE
  else
    .ok (u32toLE (min (ctRem (u32fromLE randBytes) range + lower_limit_inclusive)
        (2 ^ 32 - 1)) ++ data.drop size_limit_data_len)

/-- Add query phones to the rate-limit set (`RatelimitStateData::add`): split
the slab into size limit and slots, insert the entries, and fail with
`CDS_ERROR_RATE_LIMIT_EXCEEDED` unless the resulting set size is strictly
below the stored size limit. -/
def RatelimitStateData.add (data : List Nat) (phones : List Nat) :
    Except SgxStatus (List Nat) :=
  if data.length < size_limit_data_len then
    .error CDS_ERROR_INVALID_RATE_LIMIT_STATE
  else
    let size_limit_data := data.take size_limit_data_len
    let slots_data := ratelimit_set_add (data.drop size_limit_data_len) phones
    if ratelimit_set_size slots_data < u32fromLE size_limit_data then
      .ok (size_limit_data ++ slots_data)
    else
      .error CDS_ERROR_RATE_LIMIT_EXCEEDED

/-- Decrypt-or-initialise step of `RatelimitState::update`: an all-zero input
slab is treated as first use (clear, draw a fresh size limit); otherwise the
slab is decrypted in place under the cell's key and current-nonce IV, any
decryption failure mapped to `CDS_ERROR_INVALID_RATE_LIMIT_STATE`. -/
def RatelimitState.decryptOrInit (C : GcmCrypto) (randBytes : List Nat)
    (st : RatelimitState) (data mac : List Nat) : Except SgxStatus (List Nat) :=
  if !(data.all (· == 0)) then
    match C.decrypt st.key st.get_iv data mac with
    | .ok pt => .ok pt
    | .error _ => .error CDS_ERROR_INVALID_RATE_LIMIT_STATE
  else
    set_size_limit (List.replicate data.length 0) randBytes
      (slot_count (List.replicate data.length 0) / 2)
      (slot_count (List.replicate data.length 0) / 2)

/-- Per-client update (`RatelimitState::update`): decrypt or initialise,
pre-increment the nonce (failing with `CDS_ERROR_INVALID_RATE_LIMIT_STATE` on
`u32` overflow) before any result is revealed, add the query phones, and
re-encrypt under the incremented-nonce IV.  The returned state reflects the
in-place mutation of the cell even when the result is an error. -/
def RatelimitState.update (C : GcmCrypto) (randBytes : List Nat)
    (st : RatelimitState) (data mac : List Nat) (phones : List Nat) :
    RatelimitState × Except SgxStatus (List Nat × List Nat) :=
  match RatelimitState.decryptOrInit C randBytes st data mac with
  | .error e => (st, .error e)
  | .ok pt =>
    if st.nonce = 2 ^ 32 - 1 then
      (st, .error CDS_ERROR_INVALID_RATE_LIMIT_STATE)
    else
      match RatelimitStateData.add pt phones with
      | .error e => ({ st with nonce := st.nonce + 1 }, .error e)
      | .ok pt' =>
        match C.encrypt st.key
            (RatelimitState.get_iv { st with nonce := st.nonce + 1 }) pt' with
        | .error e => ({ st with nonce := st.nonce + 1 }, .error e)
        | .ok ctmac => ({ st with nonce := st.nonce + 1 }, .ok ctmac)

/-- Free function `update_ratelimit_state(uuid, encrypted_state, phones)`.
The per-UUID cell contents (`Option RatelimitState`) are passed in and
returned explicitly; `freshKey` models the random key of the
`Default::default()` cell installed on first use.  The slab is written back
only on success; the mutated cell persists either way. -/
def update_ratelimit_state (C : GcmCrypto) (randBytes : List Nat)
    (freshKey : Nat) (cell : Option RatelimitState) (uuid : Nat)
    (encrypted : List Nat) (phones : List Nat) :
    Option RatelimitState × List Nat × Except SgxStatus Unit :=
  if uuid = 0 then
    (cell, encrypted, .error SGX_ERROR_INVALID_PARAMETER)
  else if encrypted.length < AES_GCM_MAC_SIZE then
    (cell, encrypted, .error CDS_ERROR_INVALID_RATE_LIMIT_STATE)
  else
    match RatelimitState.update C randBytes (cell.getD { nonce := 1, key := freshKey })
        (encrypted.take (encrypted.length - AES_GCM_MAC_SIZE))
        (encrypted.drop (encrypted.length - AES_GCM_MAC_SIZE)) phones with
    | (st1, .error e) => (some st1, encrypted, .error e)
    | (st1, .ok (data1, mac1)) => (some st1, data1 ++ mac1, .ok ())

/-- Zero-padded base-10 rendering of `n` as `k` ASCII digits, most
significant first.  This is exactly the digit loop of `hash_query_phone`:
twenty constant-time `divrem 10` steps filling the buffer from the right. -/
def padDigits (n : Nat) : Nat → List Nat
  | 0 => []
  | k + 1 => padDigits (n / 10) k ++ [48 + n % 10]

/-- Decimal ASCII rendering of `n` without leading zeros. -/
def decimalAscii (n : Nat) : List Nat := padDigits n (Nat.log 10 n + 1)

/-- One step of the selection loop (`hash_truncated`): hash `'+'` followed by
the digit suffix with the SHA-1 oracle and read the first 8 bytes as a `u64`
(`from_ne_bytes` on a little-endian target). -/
def hashTruncated (sha1 : List Nat → List Nat) (data : List Nat) : Nat :=
  u64fromLE ((sha1 (43 :: data)).take 8)

/-- Suffix loop of `hash_ascii_phone`: walk the digit suffixes, hash every
one of them, and conditionally assign the candidate into `phone` exactly when
the running leading-zeroes flag meets the first non-zero digit.  The second
component counts SHA-1 evaluations. -/
def hashAsciiGo (sha1 : List Nat → List Nat) :
    List Nat → Nat → Bool → Nat × Nat
  | [], phone, _ => (phone, 0)
  | d :: rest, phone, leadingZeroes =>
    let leadingZero := d == 48
    let choice := leadingZeroes && !leadingZero
    let candidate := hashTruncated sha1 (d :: rest)
    let phone' := if choice then candidate else phone
    let next := hashAsciiGo sha1 rest phone' (leadingZeroes && leadingZero)
    (next.1, next.2 + 1)

/-- Constant-time selection over all digit suffixes (`hash_ascii_phone`). -/
def hash_ascii_phone (sha1 : List Nat → List Nat) (phone : Nat)
    (ascii : List Nat) : Nat × Nat :=
  hashAsciiGo sha1 ascii phone true

/-- Canonicalise a phone (`hash_query_phone`): render it as exactly 20 ASCII
digits, then select the hash of the suffix with no leading zeros.  Returns
the new phone value and the number of SHA-1 evaluations performed. -/
def hash_query_phone (sha1 : List Nat → List Nat) (phone : Nat) : Nat × Nat :=
  hash_ascii_phone sha1 phone (padDigits phone 20)

/-- Per-instance server state (`SgxsdServerState`): the pending-request queue
(caller handle paired with its phone count), the query-phone accumulator and
its `Vec` capacity, and whether a rate-limit map handle is present. -/
structure ServerState where
  requests : List (Nat × Nat)
  query_phones : List Nat
  cap : Nat
  rlEnabled : Bool
  deriving DecidableEq, Repr

/-- Inbound call arguments (`CallArgs`).  `queryBytes` is the result of
validating and reading the untrusted query slice (`none` models a pointer
outside untrusted memory or a failed read); `rlSliceOk` models validation of
the untrusted rate-limit-state slice. -/
structure CallArgs where
  queryBytes : Option (List Nat)
  query_iv : List Nat
  query_mac : List Nat
  query_commitment : List Nat
  query_phone_count : Nat
  ratelimit_state_uuid : Nat
  rlSliceOk : Bool

/-- Decode the phone list from the decrypted query buffer
(`RequestPhoneList`'s iterator): skip the 32-byte commitment nonce, then read
exact 8-byte chunks as native-endian `u64` values. -/
def phonesOf (pt : List Nat) : List Nat :=
  (chunksOf 8 ((pt.drop COMMITMENT_NONCE_SIZE).take
    (8 * ((pt.drop COMMITMENT_NONCE_SIZE).length / 8)))).map bytesToNatLE

/-- Request decoding (`SgxsdServerState::decode_request`): capacity check,
untrusted read, size checks, AES-GCM decryption, commitment verification and
rate-limit-slice validation, in the source's order.  Returns the decrypted
buffer and the optional rate-limit uuid. -/
def decode_request (C : GcmCrypto) (sha256 : List Nat → List Nat)
    (st : ServerState) (args : CallArgs) (request_data : List Nat) :
    Except SgxStatus (List Nat × Option Nat) :=
  if args.query_phone_count = 0 ∨
      args.query_phone_count > st.cap - st.query_phones.length then
    .error SGX_ERROR_INVALID_PARAMETER
  else
    match args.queryBytes with
    | none => .error SGX_ERROR_INVALID_PARAMETER
    | some qbytes =>
      if qbytes.length < COMMITMENT_NONCE_SIZE then
        .error CDS_ERROR_INVALID_REQUEST_SIZE
      else
        if request_data.length ≠ AES_GCM_KEY_SIZE ∨
            (qbytes.length - COMMITMENT_NONCE_SIZE) % 8 ≠ 0 ∨
            (qbytes.length - COMMITMENT_NONCE_SIZE) / 8 ≠ args.query_phone_count then
          .error CDS_ERROR_INVALID_REQUEST_SIZE
        else
          match C.keyNew request_data with
          | .error e => .error e
          | .ok key =>
            match C.decrypt key args.query_iv qbytes args.query_mac with
            | .error e => .error e
            | .ok pt =>
              if sha256 pt ≠ args.query_commitment then
                .error CDS_ERROR_QUERY_COMMITMENT_MISMATCH
              else
                if args.ratelimit_state_uuid ≠ 0 then
                  if args.rlSliceOk then
                    .ok (pt, some args.ratelimit_state_uuid)
                  else
                    .error SGX_ERROR_INVALID_PARAMETER
                else
                  .ok (pt, none)

/-- Rate-limited branch (`SgxsdServerState::update_ratelimit_state`): split
the untrusted slab into ciphertext and MAC, take the per-UUID cell (failing
with `SGX_ERROR_INVALID_STATE` when rate limiting is disabled), hash each
query phone, drive `RatelimitState::update`, and write the new ciphertext and
MAC back only on success. -/
def server_update_ratelimit_state (C : GcmCrypto)
    (sha1 : List Nat → List Nat) (randBytes : List Nat) (freshKey : Nat)
    (st : ServerState) (cell : Option RatelimitState) (rlSlab : List Nat)
    (phones : List Nat) : Option RatelimitState × List Nat × Except SgxStatus Unit :=
  if rlSlab.length < AES_GCM_MAC_SIZE then
    (cell, rlSlab, .error CDS_ERROR_INVALID_RATE_LIMIT_STATE)
  else
    if !st.rlEnabled then
      (cell, rlSlab, .error SGX_ERROR_INVALID_STATE)
    else
      match RatelimitState.update C randBytes (cell.getD { nonce := 1, key := freshKey })
          (rlSlab.take (rlSlab.length - AES_GCM_MAC_SIZE))
          (rlSlab.drop (rlSlab.length - AES_GCM_MAC_SIZE))
          (phones.map (fun p => (hash_query_phone sha1 p).1)) with
      | (st1, .error e) => (some st1, rlSlab, .error e)
      | (st1, .ok (data1, mac1)) => (some st1, data1 ++ mac1, .ok ())

/-- Combined result of a `handle_call` invocation: the new server state, the
(single modelled) per-UUID cell, the untrusted rate-limit slab, and the call
result carrying the caller handle on error. -/
structure HandleResult where
  state : ServerState
  cell : Option RatelimitState
  rlSlab : List Nat
  result : Except (SgxStatus × Nat) Unit
  deriving Repr

/-- Call handling (`SgxsdServerState::handle_call`): decode the request; on
the rate-limited path update the client's cell synchronously, otherwise
append the raw phones to the accumulator and park the caller handle with its
phone count. -/
def handle_call (C : GcmCrypto) (sha256 sha1 : List Nat → List Nat)
    (randBytes : List Nat) (freshKey : Nat) (st : ServerState)
    (cell : Option RatelimitState) (rlSlab : List Nat)
    (args : Option CallArgs) (request_data : List Nat) (caller : Nat) :
    HandleResult :=
  match args with
  | none => ⟨st, cell, rlSlab, .error (SGX_ERROR_INVALID_PARAMETER, caller)⟩
  | some args =>
    match decode_request C sha256 st args request_data with
    | .error e => ⟨st, cell, rlSlab, .error (e, caller)⟩
    | .ok (pt, rlUuid) =>
      let phones := phonesOf pt
      match rlUuid with
      | some _ =>
        match server_update_ratelimit_state C sha1 randBytes freshKey st cell
            rlSlab phones with
        | (cell', slab', .error e) => ⟨st, cell', slab', .error (e, caller)⟩
        | (cell', slab', .ok ()) => ⟨st, cell', slab', .ok ()⟩
      | none =>
        if phones.length ≥ 2 ^ 32 then
          ⟨st, cell, rlSlab, .error (SGX_ERROR_INVALID_PARAMETER, caller)⟩
        else
          ⟨{ st with
              query_phones := st.query_phones ++ phones,
              requests := st.requests ++ [(caller, phones.length)] },
            cell, rlSlab, .ok ()⟩

/-- Termination arguments (`StopArgs`).  The pointer fields are modelled by
the outcome of their untrusted-memory validation. -/
structure StopArgs where
  in_phone_count : Nat
  phonesOutside : Bool
  uuidsOutside : Bool

/-- Observable outcome of `terminate`: the chunks passed to `hash_lookup`
(in call order), the replies delivered (caller handle and bytes, in order),
and the final status. -/
structure TermOut where
  lookups : List (List Nat)
  replies : List (Nat × List Nat)
  result : Except SgxStatus Unit

/-- Chunked bulk-lookup loop of `terminate`: run `hash_lookup` on each query
chunk, collecting the attempted chunks and concatenating the written result
bytes; a lookup failure short-circuits. -/
def runLookups (lookup : List Nat → Except SgxStatus (List Nat)) :
    List (List Nat) → List (List Nat) × Except SgxStatus (List Nat)
  | [] => ([], .ok [])
  | c :: cs =>
    match lookup c with
    | .error e => ([c], .error e)
    | .ok out =>
      (c :: (runLookups lookup cs).1,
        match (runLookups lookup cs).2 with
        | .error e => .error e
        | .ok buf => .ok (out ++ buf))

/-- Reply-dispatch loop of `terminate`: split the result buffer by each
pending request's `request_phone_count * 16` bytes and reply in queue order;
a reply failure aborts with that error. -/
def replyLoop (replyFn : Nat → List Nat → Except SgxStatus Unit) :
    List (Nat × Nat) → List Nat → List (Nat × List Nat) × Except SgxStatus Unit
  | [], _ => ([], .ok ())
  | (f, c) :: rs, buf =>
    match replyFn f (buf.take (c * 16)) with
    | .error e => ([], .error e)
    | .ok () =>
      ((f, buf.take (c * 16)) :: (replyLoop replyFn rs (buf.drop (c * 16))).1,
        (replyLoop replyFn rs (buf.drop (c * 16))).2)

/-- Termination (`SgxsdServerState::terminate`): validate the argument struct,
check `in_phone_count * 8` and `in_phone_count * 16` for `usize` overflow,
validate both untrusted pointers, allocate the result buffer of
`query_phones.len() * 16` bytes (overflow-checked), perform the bulk lookup in
chunks of `MAX_HASH_TABLE_SIZE` (`mhts`, whose numeric value lives outside
`src/`), then split the result buffer over the pending requests in FIFO
order. -/
def terminate (mhts : Nat) (lookup : List Nat → Except SgxStatus (List Nat))
    (replyFn : Nat → List Nat → Except SgxStatus Unit) (st : ServerState)
    (args : Option StopArgs) : TermOut :=
  match args with
  | none => ⟨[], [], .error SGX_ERROR_INVALID_PARAMETER⟩
  | some a =>
    if a.in_phone_count * 8 ≥ 2 ^ 64 then
      ⟨[], [], .error SGX_ERROR_INVALID_PARAMETER⟩
    else if a.in_phone_count * 16 ≥ 2 ^ 64 then
      ⟨[], [], .error SGX_ERROR_INVALID_PARAMETER⟩
    else if !a.phonesOutside then
      ⟨[], [], .error SGX_ERROR_INVALID_PARAMETER⟩
    else if !a.uuidsOutside then
      ⟨[], [], .error SGX_ERROR_INVALID_PARAMETER⟩
    else if st.query_phones.length * 16 ≥ 2 ^ 64 then
      ⟨[], [], .error SGX_ERROR_INVALID_PARAMETER⟩
    else
      match runLookups lookup (chunksOf mhts st.query_phones) with
      | (log, .error e) => ⟨log, [], .error e⟩
      | (log, .ok buf) =>
        ⟨log, (replyLoop replyFn st.requests buf).1,
          (replyLoop replyFn st.requests buf).2⟩

/-- Inputs of one `RatelimitState::update` call in a trace: the RNG draw, the
presented ciphertext slab, the presented MAC, and the query phones. -/
structure UpdIn where
  rand : List Nat
  data : List Nat
  mac : List Nat
  phones : List Nat

/-- States after the calls of an update trace that revealed a ciphertext:
each successful `update` reveals a ciphertext encrypted under the IV of the
post-increment state recorded here; failed calls reveal nothing but keep
their in-place state mutation. -/
def revealStates (C : GcmCrypto) (st : RatelimitState) :
    List UpdIn → List RatelimitState
  | [] => []
  | i :: rest =>
    match RatelimitState.update C i.rand st i.data i.mac i.phones with
    | (st', .ok _) => st' :: revealStates C st' rest
    | (st', .error _) => revealStates C st' rest

/-- IVs of the ciphertexts revealed along an update trace, in order. -/
def revealIVs (C : GcmCrypto) (st : RatelimitState) (ins : List UpdIn) :
    List (List Nat) :=
  (revealStates C st ins).map RatelimitState.get_iv

/-- Total phone count of a pending-request queue
(`sum(pending.request_phone_count)`). -/
def sumCounts (rs : List (Nat × Nat)) : Nat := (rs.map Prod.snd).sum

/-- Specification-level consecutive split of the result buffer: each pending
request receives the next `request_phone_count * 16` bytes. -/
def zipSlices : List (Nat × Nat) → List Nat → List (Nat × List Nat)
  | [], _ => []
  | (f, c) :: rs, buf => (f, buf.take (c * 16)) :: zipSlices rs (buf.drop (c * 16))

/-- Padding of an IV to 12 bytes, used by the concrete cipher model below. -/
def padTo12 (iv : List Nat) : List Nat :=
  iv.take 12 ++ List.replicate (12 - iv.length) 0

/-- MAC of the concrete cipher model: it records the key and the IV, making
the MAC check reject any mismatched IV, as an ideal AES-GCM does. -/
def toyMac (k : Nat) (iv : List Nat) : List Nat := k :: padTo12 iv ++ [0, 0, 0]

/-- Concrete instantiation of the cipher oracle used to witness the theorems:
encryption is the identity on the plaintext with a MAC binding key and IV,
decryption checks the MAC. -/
def toyCrypto : GcmCrypto where
  keyNew _ := .ok 0
  encrypt k iv pt := .ok (pt, toyMac k iv)
  decrypt k iv ct mac :=
    if mac = toyMac k iv then .ok ct else .error CDS_ERROR_INVALID_RATE_LIMIT_STATE

/-- Concrete slab revealed by a successful first update of a fresh cell with
key 7 on a 68-byte all-zero state, used as a worked example below. -/
def c3Slab : List Nat :=
  (update_ratelimit_state toyCrypto [0, 0, 0, 0] 7 none 1
    (List.replicate 68 0) [0x1234]).2.1

/-! Byte-level lemmas -/

theorem bytesToNatLE_u32toLE (n : Nat) : bytesToNatLE (u32toLE n) = n % 2 ^ 32 := by
  simp only [u32toLE, bytesToNatLE]
  omega

theorem u32fromLE_u32toLE_append (n : Nat) (l : List Nat) :
    u32fromLE (u32toLE n ++ l) = n % 2 ^ 32 := by
  simp only [u32fromLE, u32toLE, List.cons_append, List.nil_append,
    List.take_succ_cons, List.take_zero, bytesToNatLE]
  omega

theorem u32toLE_inj {a b : Nat} (ha : a < 2 ^ 32) (hb : b < 2 ^ 32)
    (h : u32toLE a = u32toLE b) : a = b := by
  have := congrArg bytesToNatLE h
  rwa [bytesToNatLE_u32toLE, bytesToNatLE_u32toLE, Nat.mod_eq_of_lt ha,
    Nat.mod_eq_of_lt hb] at this

theorem get_iv_length (st : RatelimitState) : st.get_iv.length = 12 := by
  simp [RatelimitState.get_iv, u32toLE]

theorem u32fromLE_get_iv (st : RatelimitState) (h : st.nonce < 2 ^ 32) :
    u32fromLE st.get_iv = st.nonce := by
  rw [RatelimitState.get_iv, u32fromLE_u32toLE_append, Nat.mod_eq_of_lt h]

theorem get_iv_inj {st1 st2 : RatelimitState} (h1 : st1.nonce < 2 ^ 32)
    (h2 : st2.nonce < 2 ^ 32)
    (h : st1.get_iv = st2.get_iv) : st1.nonce = st2.nonce := by
  have := congrArg u32fromLE h
  rwa [u32fromLE_get_iv st1 h1, u32fromLE_get_iv st2 h2] at this

/-! Lemmas about the concrete cipher model -/

theorem toyMac_length (k : Nat) (iv : List Nat) :
    (toyMac k iv).length = AES_GCM_MAC_SIZE := by
  simp [toyMac, padTo12, AES_GCM_MAC_SIZE]
  omega

theorem padTo12_of_length (iv : List Nat) (h : iv.length = 12) :
    padTo12 iv = iv := by
  rw [padTo12, h]
  simp [List.take_of_length_le (Nat.le_of_eq h)]

theorem toyCrypto_mac_len {k : Nat} {iv pt ct mac : List Nat}
    (h : toyCrypto.encrypt k iv pt = .ok (ct, mac)) :
    mac.length = AES_GCM_MAC_SIZE := by
  simp only [toyCrypto] at h
  cases h
  exact toyMac_length k iv

theorem toyCrypto_dec_sound {k : Nat} {iv ct mac pt : List Nat}
    (h : toyCrypto.decrypt k iv ct mac = .ok pt) :
    ∃ pt0, toyCrypto.encrypt k iv pt0 = .ok (ct, mac) := by
  simp only [toyCrypto] at h
  split at h
  next heq =>
    cases h
    exact ⟨ct, by simp only [toyCrypto]; rw [heq]⟩
  next => cases h

theorem toyCrypto_dec_len {k : Nat} {iv ct mac pt : List Nat}
    (h : toyCrypto.decrypt k iv ct mac = .ok pt) : pt.length = ct.length := by
  simp only [toyCrypto] at h
  split at h
  · cases h; rfl
  · cases h

theorem toyCrypto_iv_inj {k : Nat} {iv1 p1 iv2 p2 ct mac : List Nat}
    (l1 : iv1.length = 12) (l2 : iv2.length = 12)
    (h1 : toyCrypto.encrypt k iv1 p1 = .ok (ct, mac))
    (h2 : toyCrypto.encrypt k iv2 p2 = .ok (ct, mac)) : iv1 = iv2 := by
  simp only [toyCrypto, Except.ok.injEq, Prod.mk.injEq] at h1 h2
  have hmac : toyMac k iv1 = toyMac k iv2 := h1.2.trans h2.2.symm
  simp only [toyMac, List.cons_append, List.cons.injEq, true_and] at hmac
  have := List.append_cancel_right hmac
  rwa [padTo12_of_length iv1 l1, padTo12_of_length iv2 l2] at this

/-! Structural lemmas about `RatelimitState.update` -/

theorem decryptOrInit_err {C : GcmCrypto} {rb : List Nat} {st : RatelimitState}
    {d m : List Nat} {e : SgxStatus}
    (h : RatelimitState.decryptOrInit C rb st d m = .error e) :
    e = CDS_ERROR_INVALID_RATE_LIMIT_STATE := by
  unfold RatelimitState.decryptOrInit at h
  split at h
  · split at h
    · cases h
    · cases h; rfl
  · unfold set_size_limit at h
    split at h
    · cases h; rfl
    · cases h

theorem update_fst_cases (C : GcmCrypto) (rb : List Nat) (st : RatelimitState)
    (d m p : List Nat) :
    (RatelimitState.update C rb st d m p).1 = st ∨
    ((RatelimitState.update C rb st d m p).1 = { st with nonce := st.nonce + 1 } ∧
      st.nonce ≠ 2 ^ 32 - 1) := by
  unfold RatelimitState.update
  split
  · left; rfl
  next pt heq =>
    split
    · left; rfl
    next hne =>
      split
      · right; exact ⟨rfl, hne⟩
      · split
        · right; exact ⟨rfl, hne⟩
        · right; exact ⟨rfl, hne⟩

theorem update_key (C : GcmCrypto) (rb : List Nat) (st : RatelimitState)
    (d m p : List Nat) :
    ((RatelimitState.update C rb st d m p).1).key = st.key := by
  rcases update_fst_cases C rb st d m p with h | ⟨h, _⟩ <;> rw [h]

theorem update_nonce_ge (C : GcmCrypto) (rb : List Nat) (st : RatelimitState)
    (d m p : List Nat) :
    st.nonce ≤ ((RatelimitState.update C rb st d m p).1).nonce := by
  rcases update_fst_cases C rb st d m p with h | ⟨h, _⟩
  · rw [h]
  · rw [h]
    exact Nat.le_succ _

theorem update_nonce_lt (C : GcmCrypto) (rb : List Nat) (st : RatelimitState)
    (d m p : List Nat) (hwf : st.nonce < 2 ^ 32) :
    ((RatelimitState.update C rb st d m p).1).nonce < 2 ^ 32 := by
  rcases update_fst_cases C rb st d m p with h | ⟨h, hne⟩ <;> rw [h]
  · exact hwf
  · simp only []
    omega

theorem update_ok_struct {C : GcmCrypto} {rb : List Nat} {st st' : RatelimitState}
    {d m p ct mac : List Nat}
    (h : RatelimitState.update C rb st d m p = (st', .ok (ct, mac))) :
    st' = { st with nonce := st.nonce + 1 } ∧ st.nonce ≠ 2 ^ 32 - 1 ∧
    ∃ pt', C.encrypt st'.key st'.get_iv pt' = .ok (ct, mac) := by
  unfold RatelimitState.update at h
  split at h
  · simp at h
  · split at h
    · simp at h
    next hne =>
      split at h
      · simp at h
      next pt' hadd =>
        split at h
        · simp at h
        next ctmac henc =>
          simp only [Prod.mk.injEq, Except.ok.injEq] at h
          obtain ⟨h1, h2⟩ := h
          subst h1
          subst h2
          exact ⟨rfl, hne, pt', henc⟩

theorem update_rate_struct {C : GcmCrypto} {rb : List Nat} {st st' : RatelimitState}
    {d m p : List Nat}
    (h : RatelimitState.update C rb st d m p = (st', .error CDS_ERROR_RATE_LIMIT_EXCEEDED)) :
    st' = { st with nonce := st.nonce + 1 } ∧ st.nonce ≠ 2 ^ 32 - 1 := by
  unfold RatelimitState.update at h
  split at h
  next e heq =>
    simp only [Prod.mk.injEq, Except.error.injEq] at h
    rw [decryptOrInit_err heq] at h
    cases h.2
  · split at h
    · simp at h
    next hne =>
      split at h
      · simp only [Prod.mk.injEq, Except.error.injEq] at h
        exact ⟨h.1.symm, hne⟩
      · split at h
        · simp only [Prod.mk.injEq, Except.error.injEq] at h
          exact ⟨h.1.symm, hne⟩
        · simp at h

theorem update_decrypt_err {C : GcmCrypto} {rb : List Nat} {st : RatelimitState}
    {d m : List Nat} (p : List Nat) (hnz : (d.all (· == 0)) = false)
    (hdec : ∀ pt, ¬ C.decrypt st.key st.get_iv d m = .ok pt) :
    RatelimitState.update C rb st d m p =
      (st, .error CDS_ERROR_INVALID_RATE_LIMIT_STATE) := by
  have hdoi : RatelimitState.decryptOrInit C rb st d m =
      .error CDS_ERROR_INVALID_RATE_LIMIT_STATE := by
    unfold RatelimitState.decryptOrInit
    rw [hnz]
    simp only [Bool.not_false, if_true]
    split
    next pt hd => exact absurd hd (hdec pt)
    next => rfl
  unfold RatelimitState.update
  rw [hdoi]

/-! Structural lemmas about the free function `update_ratelimit_state` -/

theorem updFree_cases (C : GcmCrypto) (rb : List Nat) (fk : Nat)
    (cell : Option RatelimitState) (uuid : Nat) (enc p : List Nat) :
    (update_ratelimit_state C rb fk cell uuid enc p).2.2 = .ok () ∨
    (update_ratelimit_state C rb fk cell uuid enc p).2.1 = enc := by
  unfold update_ratelimit_state
  split
  · right; rfl
  · split
    · right; rfl
    · split
      · right; rfl
      · left; rfl

theorem updFree_error_slab {C : GcmCrypto} {rb : List Nat} {fk : Nat}
    {cell : Option RatelimitState} {uuid : Nat} {enc p : List Nat} {e : SgxStatus}
    (h : (update_ratelimit_state C rb fk cell uuid enc p).2.2 = .error e) :
    (update_ratelimit_state C rb fk cell uuid enc p).2.1 = enc := by
  rcases updFree_cases C rb fk cell uuid enc p with hok | hs
  · rw [hok] at h; cases h
  · exact hs

theorem updFree_ok_struct {C : GcmCrypto} {rb : List Nat} {fk : Nat}
    {cell : Option RatelimitState} {uuid : Nat} {enc p : List Nat}
    {cellOut : Option RatelimitState} {slabOut : List Nat}
    (h : update_ratelimit_state C rb fk cell uuid enc p = (cellOut, slabOut, .ok ())) :
    ∃ ct mac1,
      cellOut = some { nonce := (cell.getD { nonce := 1, key := fk }).nonce + 1,
                       key := (cell.getD { nonce := 1, key := fk }).key } ∧
      slabOut = ct ++ mac1 ∧
      (cell.getD { nonce := 1, key := fk }).nonce ≠ 2 ^ 32 - 1 ∧
      ∃ pt', C.encrypt (cell.getD { nonce := 1, key := fk }).key
        (RatelimitState.get_iv
          { nonce := (cell.getD { nonce := 1, key := fk }).nonce + 1,
            key := (cell.getD { nonce := 1, key := fk }).key }) pt' = .ok (ct, mac1) := by
  unfold update_ratelimit_state at h
  split at h
  · simp at h
  · split at h
    · simp at h
    · split at h
      · simp at h
      next st1 data1 mac1 hupd =>
        simp only [Prod.mk.injEq] at h
        obtain ⟨h1, h2, -⟩ := h
        obtain ⟨hst, hne, pt', henc⟩ := update_ok_struct hupd
        subst h1
        subst h2
        refine ⟨data1, mac1, ?_, rfl, hne, pt', ?_⟩
        · rw [hst]
        · rw [hst] at henc
          exact henc

theorem updFree_rate_struct {C : GcmCrypto} {rb : List Nat} {fk : Nat}
    {st1 : RatelimitState} {uuid : Nat} {enc p : List Nat}
    {cellOut : Option RatelimitState} {slabOut : List Nat}
    (h : update_ratelimit_state C rb fk (some st1) uuid enc p =
      (cellOut, slabOut, .error CDS_ERROR_RATE_LIMIT_EXCEEDED)) :
    cellOut = some { nonce := st1.nonce + 1, key := st1.key } ∧ slabOut = enc ∧
      st1.nonce ≠ 2 ^ 32 - 1 := by
  unfold update_ratelimit_state at h
  split at h
  · simp only [Prod.mk.injEq, Except.error.injEq] at h
    cases h.2.2
  · split at h
    · simp only [Prod.mk.injEq, Except.error.injEq] at h
      cases h.2.2
    · split at h
      next st1' e hupd =>
        simp only [Prod.mk.injEq, Except.error.injEq] at h
        obtain ⟨h1, h2, h3⟩ := h
        subst h3
        obtain ⟨hst, hne⟩ := update_rate_struct (by simpa using hupd)
        subst h1
        subst h2
        exact ⟨by rw [hst], rfl, by simpa using hne⟩
      · simp at h

/-! Claim C4 -/

/-- Claim C4: when the cell's nonce equals `u32::MAX`, `RatelimitState.update`
fails with `CDS_ERROR_INVALID_RATE_LIMIT_STATE` (leaving the cell unchanged),
and on this and every other error path of `update_ratelimit_state` no
ciphertext or MAC bytes are written back to the untrusted slab. -/
theorem claim_C4 :
    (∀ (C : GcmCrypto) (rb : List Nat) (st : RatelimitState) (d m p : List Nat),
      st.nonce = 2 ^ 32 - 1 →
      RatelimitState.update C rb st d m p =
        (st, .error CDS_ERROR_INVALID_RATE_LIMIT_STATE)) ∧
    (∀ (C : GcmCrypto) (rb : List Nat) (fk : Nat) (cell : Option RatelimitState)
      (uuid : Nat) (enc p : List Nat) (e : SgxStatus),
      (update_ratelimit_state C rb fk cell uuid enc p).2.2 = .error e →
      (update_ratelimit_state C rb fk cell uuid enc p).2.1 = enc) := by
  constructor
  · intro C rb st d m p hmax
    unfold RatelimitState.update
    split
    next e heq => rw [decryptOrInit_err heq]
    next pt heq => rw [if_pos hmax]
  · intro C rb fk cell uuid enc p e h
    exact updFree_error_slab h

/-- Witness for C4 at concrete inputs. -/
theorem claim_C4_witness :
    RatelimitState.update toyCrypto [0, 0, 0, 0]
        { nonce := 2 ^ 32 - 1, key := 0 } [] [] [] =
      ({ nonce := 2 ^ 32 - 1, key := 0 },
        .error CDS_ERROR_INVALID_RATE_LIMIT_STATE) ∧
    (update_ratelimit_state toyCrypto [] 0 none 0 [] []).2.1 = [] :=
  ⟨claim_C4.1 toyCrypto [0, 0, 0, 0] { nonce := 2 ^ 32 - 1, key := 0 } [] [] [] rfl,
   claim_C4.2 toyCrypto [] 0 none 0 [] [] SGX_ERROR_INVALID_PARAMETER rfl⟩

/-! Claim C5 -/

/-- Claim C5: every rate-limit plaintext slab shorter than 4 bytes is rejected
by the update path with `CDS_ERROR_INVALID_RATE_LIMIT_STATE`; on the all-zero
first-use path the `slot_count` computation (modelled with the wrapping
`usize` subtraction of a release build) is total for slab lengths 0 through 3
and `set_size_limit` then rejects the short slab. -/
theorem claim_C5 (C : GcmCrypto) (rb : List Nat) (st : RatelimitState)
    (d m p : List Nat) (hlen : d.length < size_limit_data_len)
    (hdec : ∀ k iv ct mac pt, C.decrypt k iv ct mac = .ok pt →
      pt.length = ct.length) :
    (RatelimitState.update C rb st d m p).2 =
      .error CDS_ERROR_INVALID_RATE_LIMIT_STATE := by
  have hptlen : ∀ pt, RatelimitState.decryptOrInit C rb st d m = .ok pt →
      pt.length < size_limit_data_len := by
    intro pt h
    unfold RatelimitState.decryptOrInit at h
    split at h
    · split at h
      next pt0 hd =>
        cases h
        rw [hdec _ _ _ _ _ hd]
        exact hlen
      next => cases h
    · unfold set_size_limit at h
      rw [if_pos (by simpa using hlen)] at h
      cases h
  unfold RatelimitState.update
  split
  next e heq => rw [decryptOrInit_err heq]
  next pt heq =>
    split
    · rfl
    · have hadd : RatelimitStateData.add pt p =
          .error CDS_ERROR_INVALID_RATE_LIMIT_STATE := by
        unfold RatelimitStateData.add
        rw [if_pos (hptlen pt heq)]
      rw [hadd]

/-- Witness for C5 at a concrete 3-byte slab. -/
theorem claim_C5_witness :
    (RatelimitState.update toyCrypto [0, 0, 0, 0]
      { nonce := 1, key := 0 } [0, 0, 0] [] []).2 =
      .error CDS_ERROR_INVALID_RATE_LIMIT_STATE :=
  claim_C5 toyCrypto [0, 0, 0, 0] { nonce := 1, key := 0 } [0, 0, 0] [] []
    (by decide) (fun _ _ _ _ _ h => toyCrypto_dec_len h)

/-! Claim C8 -/

/-- Claim C8: `handle_call` fails with `SGX_ERROR_INVALID_PARAMETER`, returned
together with the caller handle, whenever the request's `query_phone_count`
is zero or exceeds the remaining capacity of the `query_phones` accumulator;
the accumulator and the pending-request queue are unchanged. -/
theorem claim_C8 (C : GcmCrypto) (sha256 sha1 : List Nat → List Nat)
    (rb : List Nat) (fk : Nat) (st : ServerState)
    (cell : Option RatelimitState) (rlSlab : List Nat) (args : CallArgs)
    (rd : List Nat) (caller : Nat)
    (h : args.query_phone_count = 0 ∨
      args.query_phone_count > st.cap - st.query_phones.length) :
    handle_call C sha256 sha1 rb fk st cell rlSlab (some args) rd caller =
      ⟨st, cell, rlSlab, .error (SGX_ERROR_INVALID_PARAMETER, caller)⟩ := by
  have hdec : decode_request C sha256 st args rd =
      .error SGX_ERROR_INVALID_PARAMETER := by
    unfold decode_request
    rw [if_pos h]
  simp only [handle_call, hdec]

/-- Witness for C8 at a concrete zero-count request. -/
theorem claim_C8_witness :
    handle_call toyCrypto (fun _ => []) (fun _ => []) [] 0
      { requests := [], query_phones := [], cap := 4, rlEnabled := false }
      none []
      (some { queryBytes := none, query_iv := [], query_mac := [],
              query_commitment := [], query_phone_count := 0,
              ratelimit_state_uuid := 0, rlSliceOk := true }) [] 3 =
      ⟨{ requests := [], query_phones := [], cap := 4, rlEnabled := false },
        none, [], .error (SGX_ERROR_INVALID_PARAMETER, 3)⟩ :=
  claim_C8 toyCrypto (fun _ => []) (fun _ => []) [] 0
    { requests := [], query_phones := [], cap := 4, rlEnabled := false }
    none []
    { queryBytes := none, query_iv := [], query_mac := [],
      query_commitment := [], query_phone_count := 0,
      ratelimit_state_uuid := 0, rlSliceOk := true } [] 3 (Or.inl rfl)

/-! Claim C10 -/

/-- Claim C10: `terminate` fails with `SGX_ERROR_INVALID_PARAMETER` whenever
`in_phone_count * 8` or `in_phone_count * 16` overflows the native word size,
and in every such case `hash_lookup` is never invoked (the lookup log is
empty) and no replies are sent. -/
theorem claim_C10 (mhts : Nat)
    (lookup : List Nat → Except SgxStatus (List Nat))
    (replyFn : Nat → List Nat → Except SgxStatus Unit) (st : ServerState)
    (a : StopArgs)
    (h : a.in_phone_count * 8 ≥ 2 ^ 64 ∨ a.in_phone_count * 16 ≥ 2 ^ 64) :
    terminate mhts lookup replyFn st (some a) =
      ⟨[], [], .error SGX_ERROR_INVALID_PARAMETER⟩ := by
  simp only [terminate]
  rcases h with h | h
  · rw [if_pos h]
  · by_cases h8 : a.in_phone_count * 8 ≥ 2 ^ 64
    · rw [if_pos h8]
    · rw [if_neg h8, if_pos h]

/-- Witness for C10 at a concrete overflowing phone count. -/
theorem claim_C10_witness :
    terminate 1 (fun _ => .ok []) (fun _ _ => .ok ())
      { requests := [], query_phones := [], cap := 0, rlEnabled := false }
      (some { in_phone_count := 2 ^ 61, phonesOutside := true,
              uuidsOutside := true }) =
      ⟨[], [], .error SGX_ERROR_INVALID_PARAMETER⟩ :=
  claim_C10 1 (fun _ => .ok []) (fun _ _ => .ok ())
    { requests := [], query_phones := [], cap := 0, rlEnabled := false }
    { in_phone_count := 2 ^ 61, phonesOutside := true, uuidsOutside := true }
    (Or.inr (by norm_num))

/-! Claim C2 -/

/-- Counterexample to C2 as stated: `update_ratelimit_state(uuid = 1,
state = [0; 52], phones = [0x1234])` does not succeed.  The 36-byte plaintext
has 4 raw slots, hence effective slot count 3 and
`set_size_limit(1, 1)` forces the hidden limit to 1; after inserting the one
phone the set size reaches the limit and the call fails with
`CDS_ERROR_RATE_LIMIT_EXCEEDED`. -/
theorem claim_C2_counterexample :
    (update_ratelimit_state toyCrypto [0, 0, 0, 0] 0 none 1
      (List.replicate 52 0) [0x1234]).2.2 =
      .error CDS_ERROR_RATE_LIMIT_EXCEEDED := by
  rfl

/-- Claim C2 (amended): calling `update_ratelimit_state` with `uuid = 1`, a
52-byte all-zero encrypted state and the single phone `0x1234` fails with
`CDS_ERROR_RATE_LIMIT_EXCEEDED` for every cipher, RNG draw and fresh cell
key: the derived size limit is always 1 (from `set_size_limit(1, 1)` on the
3-effective-slot plaintext) while the post-add set size is 1; the slab is not
written back, and the cell is left installed with its nonce pre-incremented
from 1 to 2 and its fresh key. -/
theorem claim_C2 (C : GcmCrypto) (rb : List Nat) (fk : Nat) :
    update_ratelimit_state C rb fk none 1 (List.replicate 52 0) [0x1234] =
      (some { nonce := 2, key := fk }, List.replicate 52 0,
        .error CDS_ERROR_RATE_LIMIT_EXCEEDED) := by
  have hdoi : RatelimitState.decryptOrInit C rb { nonce := 1, key := fk }
      (List.replicate 36 0) (List.replicate 16 0) =
      .ok ([1, 0, 0, 0] ++ List.replicate 32 0) := by
    unfold RatelimitState.decryptOrInit
    have hall : (!((List.replicate 36 (0 : Nat)).all fun x => x == 0)) = false := by
      decide
    rw [hall]
    simp only [Bool.false_eq_true, if_false, List.length_replicate]
    unfold set_size_limit
    have hsc : slot_count (List.replicate 36 (0 : Nat)) / 2 = 1 := by decide
    rw [hsc]
    have hrem : ctRem (u32fromLE rb) 1 = 0 := Nat.mod_one _
    rw [hrem]
    rw [if_neg (by simp [size_limit_data_len])]
    rw [List.drop_replicate]
    rfl
  have hupd : RatelimitState.update C rb { nonce := 1, key := fk }
      (List.replicate 36 0) (List.replicate 16 0) [0x1234] =
      ({ nonce := 2, key := fk }, .error CDS_ERROR_RATE_LIMIT_EXCEEDED) := by
    unfold RatelimitState.update
    rw [hdoi]
    have hadd : RatelimitStateData.add ([1, 0, 0, 0] ++ List.replicate 32 0)
        [0x1234] = .error CDS_ERROR_RATE_LIMIT_EXCEEDED := by
      rfl
    simp only [hadd]
    rw [if_neg (by norm_num)]
  unfold update_ratelimit_state
  rw [if_neg (by norm_num)]
  rw [if_neg (by simp [AES_GCM_MAC_SIZE])]
  simp only [List.length_replicate, AES_GCM_MAC_SIZE, Option.getD_none,
    List.take_replicate, List.drop_replicate]
  norm_num
  rw [hupd]

/-! Reveal-trace lemmas for claim C1 -/

theorem u32fromLE_take (l : List Nat) : u32fromLE (l.take 4) = u32fromLE l := by
  simp [u32fromLE, List.take_take]

theorem revealStates_cons_ok {C : GcmCrypto} {i : UpdIn} {rest : List UpdIn}
    {st st' : RatelimitState} {o : List Nat × List Nat}
    (h : RatelimitState.update C i.rand st i.data i.mac i.phones = (st', .ok o)) :
    revealStates C st (i :: rest) = st' :: revealStates C st' rest := by
  rw [revealStates, h]

theorem revealStates_bounds (C : GcmCrypto) :
    ∀ (ins : List UpdIn) (st : RatelimitState), st.nonce < 2 ^ 32 →
      ∀ s ∈ revealStates C st ins, st.nonce < s.nonce ∧ s.nonce < 2 ^ 32 := by
  intro ins
  induction ins with
  | nil =>
    intro st _ s hs
    simp [revealStates] at hs
  | cons i rest ih =>
    intro st hwf s hs
    unfold revealStates at hs
    split at hs
    next st' o heq =>
      have hfst : (RatelimitState.update C i.rand st i.data i.mac i.phones).1 = st' :=
        congrArg Prod.fst heq
      have hwf' : st'.nonce < 2 ^ 32 := hfst ▸ update_nonce_lt C i.rand st i.data i.mac i.phones hwf
      obtain ⟨k, mk⟩ := o
      obtain ⟨hst', -, -⟩ := update_ok_struct heq
      have hlt : st.nonce < st'.nonce := by rw [hst']; exact Nat.lt_succ_self _
      rcases List.mem_cons.mp hs with rfl | hmem
      · exact ⟨hlt, hwf'⟩
      · obtain ⟨h1, h2⟩ := ih st' hwf' s hmem
        exact ⟨Nat.lt_trans hlt h1, h2⟩
    next st' e heq =>
      have hfst : (RatelimitState.update C i.rand st i.data i.mac i.phones).1 = st' :=
        congrArg Prod.fst heq
      have hwf' : st'.nonce < 2 ^ 32 := hfst ▸ update_nonce_lt C i.rand st i.data i.mac i.phones hwf
      have hge : st.nonce ≤ st'.nonce := hfst ▸ update_nonce_ge C i.rand st i.data i.mac i.phones
      obtain ⟨h1, h2⟩ := ih st' hwf' s hs
      exact ⟨Nat.lt_of_le_of_lt hge h1, h2⟩

theorem revealStates_pairwise (C : GcmCrypto) :
    ∀ (ins : List UpdIn) (st : RatelimitState), st.nonce < 2 ^ 32 →
      List.Pairwise (fun a b => a.nonce < b.nonce) (revealStates C st ins) := by
  intro ins
  induction ins with
  | nil =>
    intro st _
    simp [revealStates]
  | cons i rest ih =>
    intro st hwf
    unfold revealStates
    split
    next st' o heq =>
      have hfst : (RatelimitState.update C i.rand st i.data i.mac i.phones).1 = st' :=
        congrArg Prod.fst heq
      have hwf' : st'.nonce < 2 ^ 32 := hfst ▸ update_nonce_lt C i.rand st i.data i.mac i.phones hwf
      refine List.Pairwise.cons ?_ (ih st' hwf')
      intro b hb
      exact (revealStates_bounds C rest st' hwf' b hb).1
    next st' e heq =>
      have hfst : (RatelimitState.update C i.rand st i.data i.mac i.phones).1 = st' :=
        congrArg Prod.fst heq
      have hwf' : st'.nonce < 2 ^ 32 := hfst ▸ update_nonce_lt C i.rand st i.data i.mac i.phones hwf
      exact ih st' hwf'

/-! Claim C1 -/

/-- Claim C1: for every client cell, along any sequence of
`RatelimitState::update` calls the IVs of the revealed ciphertexts are
strictly increasing when their first 4 bytes are read as an unsigned
little-endian `u32`; and starting from a fresh cell (nonce 1), when the first
two calls both reveal a ciphertext their IVs are `02 00 00 00` and
`03 00 00 00` followed by eight zero bytes. -/
theorem claim_C1 (C : GcmCrypto) (st : RatelimitState) (ins : List UpdIn)
    (hwf : st.nonce < 2 ^ 32) :
    List.Pairwise (· < ·)
      ((revealIVs C st ins).map (fun iv => u32fromLE (iv.take 4))) ∧
    (∀ i1 i2 rest st1 o1 st2 o2, st.nonce = 1 → ins = i1 :: i2 :: rest →
      RatelimitState.update C i1.rand st i1.data i1.mac i1.phones = (st1, .ok o1) →
      RatelimitState.update C i2.rand st1 i2.data i2.mac i2.phones = (st2, .ok o2) →
      (revealIVs C st ins).take 2 =
        [[2, 0, 0, 0, 0, 0, 0, 0, 0, 0, 0, 0],
         [3, 0, 0, 0, 0, 0, 0, 0, 0, 0, 0, 0]]) := by
  constructor
  · have hmap : (revealIVs C st ins).map (fun iv => u32fromLE (iv.take 4)) =
        (revealStates C st ins).map (fun s => s.nonce) := by
      rw [revealIVs, List.map_map]
      refine List.map_congr_left ?_
      intro s hs
      have hswf : s.nonce < 2 ^ 32 := (revealStates_bounds C ins st hwf s hs).2
      show u32fromLE (s.get_iv.take 4) = s.nonce
      rw [u32fromLE_take, u32fromLE_get_iv s hswf]
    rw [hmap, List.pairwise_map]
    exact revealStates_pairwise C ins st hwf
  · intro i1 i2 rest st1 o1 st2 o2 hst hins hupd1 hupd2
    subst hins
    obtain ⟨k1, m1⟩ := o1
    obtain ⟨k2, m2⟩ := o2
    obtain ⟨hst1, -, -⟩ := update_ok_struct hupd1
    obtain ⟨hst2, -, -⟩ := update_ok_struct hupd2
    have hn1 : st1.nonce = 2 := by rw [hst1]; simp [hst]
    have hn2 : st2.nonce = 3 := by rw [hst2]; simp [hn1]
    unfold revealIVs
    rw [revealStates_cons_ok hupd1, revealStates_cons_ok hupd2]
    simp only [List.map_cons, List.take_succ_cons, List.take_zero]
    rw [RatelimitState.get_iv, RatelimitState.get_iv, hn1, hn2]
    rfl

/-- Witness for C1 on a fresh cell and the empty trace. -/
theorem claim_C1_witness :
    List.Pairwise (· < ·)
      ((revealIVs toyCrypto { nonce := 1, key := 0 } []).map
        (fun iv => u32fromLE (iv.take 4))) ∧
    (∀ i1 i2 rest st1 o1 st2 o2,
      RatelimitState.nonce { nonce := 1, key := 0 } = 1 →
      ([] : List UpdIn) = i1 :: i2 :: rest →
      RatelimitState.update toyCrypto i1.rand { nonce := 1, key := 0 }
        i1.data i1.mac i1.phones = (st1, .ok o1) →
      RatelimitState.update toyCrypto i2.rand st1 i2.data i2.mac i2.phones =
        (st2, .ok o2) →
      (revealIVs toyCrypto { nonce := 1, key := 0 } []).take 2 =
        [[2, 0, 0, 0, 0, 0, 0, 0, 0, 0, 0, 0],
         [3, 0, 0, 0, 0, 0, 0, 0, 0, 0, 0, 0]]) :=
  claim_C1 toyCrypto { nonce := 1, key := 0 } [] (by norm_num)

/-! Claim C3 -/

/-- Claim C3: when an `update_ratelimit_state` call fails in the add step
with `CDS_ERROR_RATE_LIMIT_EXCEEDED`, the cell's nonce has nevertheless been
incremented while no ciphertext is written back to the untrusted slab;
consequently any later update presented with the unchanged previous
ciphertext (revealed by the preceding successful call) decrypts under a
strictly larger IV and fails with `CDS_ERROR_INVALID_RATE_LIMIT_STATE`.  The
cipher oracle is assumed ideal: decryption succeeds only on an authentic
(key, IV) pair and the MAC binds the IV. -/
theorem claim_C3 (C : GcmCrypto)
    (hdec : ∀ k iv ct mac pt, C.decrypt k iv ct mac = .ok pt →
      ∃ pt0, C.encrypt k iv pt0 = .ok (ct, mac))
    (hivinj : ∀ k iv1 p1 iv2 p2 ct mac, iv1.length = 12 → iv2.length = 12 →
      C.encrypt k iv1 p1 = .ok (ct, mac) → C.encrypt k iv2 p2 = .ok (ct, mac) →
      iv1 = iv2)
    (hmac : ∀ k iv pt ct mac, C.encrypt k iv pt = .ok (ct, mac) →
      mac.length = AES_GCM_MAC_SIZE)
    (rb1 : List Nat) (fk1 : Nat) (cell0 : Option RatelimitState) (uuid : Nat)
    (slab0 p0 slab1 : List Nat) (st1 : RatelimitState)
    (rb2 : List Nat) (fk2 : Nat) (p1 : List Nat)
    (cellOut2 : Option RatelimitState) (slabOut2 : List Nat)
    (hwf : st1.nonce < 2 ^ 32)
    (h1 : update_ratelimit_state C rb1 fk1 cell0 uuid slab0 p0 =
      (some st1, slab1, .ok ()))
    (h2 : update_ratelimit_state C rb2 fk2 (some st1) uuid slab1 p1 =
      (cellOut2, slabOut2, .error CDS_ERROR_RATE_LIMIT_EXCEEDED)) :
    slabOut2 = slab1 ∧
    cellOut2 = some { nonce := st1.nonce + 1, key := st1.key } ∧
    ((slab1.take (slab1.length - AES_GCM_MAC_SIZE)).all (· == 0) = false →
      ∀ rb3 fk3 p2,
        (update_ratelimit_state C rb3 fk3 cellOut2 uuid slab1 p2).2.2 =
          .error CDS_ERROR_INVALID_RATE_LIMIT_STATE) := by
  obtain ⟨hc2, hs2, hne1⟩ := updFree_rate_struct h2
  refine ⟨hs2, hc2, ?_⟩
  intro hnz rb3 fk3 p2
  have huuid : uuid ≠ 0 := by
    intro h0
    unfold update_ratelimit_state at h1
    rw [if_pos h0] at h1
    simp at h1
  obtain ⟨ct1, mac1, hcell1, hslab1, hne0, pt', henc⟩ := updFree_ok_struct h1
  have hst1 : st1 =
      { nonce := (cell0.getD { nonce := 1, key := fk1 }).nonce + 1,
        key := (cell0.getD { nonce := 1, key := fk1 }).key } := by
    exact Option.some_inj.mp hcell1
  have henc1 : C.encrypt st1.key st1.get_iv pt' = .ok (ct1, mac1) := by
    rw [hst1]
    exact henc
  have hmac1 : mac1.length = AES_GCM_MAC_SIZE := hmac _ _ _ _ _ henc1
  have hslab1len : slab1.length = ct1.length + AES_GCM_MAC_SIZE := by
    rw [hslab1, List.length_append, hmac1]
  have hsub : slab1.length - AES_GCM_MAC_SIZE = ct1.length := by omega
  have htake : slab1.take (slab1.length - AES_GCM_MAC_SIZE) = ct1 := by
    rw [hsub, hslab1, List.take_left]
  have hdrop : slab1.drop (slab1.length - AES_GCM_MAC_SIZE) = mac1 := by
    rw [hsub, hslab1, List.drop_left]
  rw [htake] at hnz
  have hupd : RatelimitState.update C rb3
      { nonce := st1.nonce + 1, key := st1.key } ct1 mac1 p2 =
      ({ nonce := st1.nonce + 1, key := st1.key },
        .error CDS_ERROR_INVALID_RATE_LIMIT_STATE) := by
    apply update_decrypt_err p2 hnz
    intro pt hd
    obtain ⟨pt0, henc2⟩ := hdec _ _ _ _ _ hd
    have hiv : RatelimitState.get_iv { nonce := st1.nonce + 1, key := st1.key } =
        st1.get_iv :=
      hivinj st1.key _ pt0 st1.get_iv pt' ct1 mac1 (get_iv_length _)
        (get_iv_length _) henc2 henc1
    have hlt2 : RatelimitState.nonce { nonce := st1.nonce + 1, key := st1.key } <
        2 ^ 32 := by
      show st1.nonce + 1 < 2 ^ 32
      have : st1.nonce ≠ 2 ^ 32 - 1 := hne1
      omega
    have heqn := get_iv_inj hlt2 hwf hiv
    have : st1.nonce + 1 = st1.nonce := heqn
    omega
  rw [hc2]
  unfold update_ratelimit_state
  rw [if_neg huuid]
  rw [if_neg (show ¬ slab1.length < AES_GCM_MAC_SIZE by omega)]
  simp only [Option.getD_some]
  rw [htake, hdrop, hupd]

/-- Witness for C3 on a concrete two-call trace with the concrete cipher. -/
theorem claim_C3_witness :
    c3Slab = c3Slab ∧
    (some { nonce := 3, key := 7 } : Option RatelimitState) =
      some { nonce := 3, key := 7 } ∧
    ((c3Slab.take (c3Slab.length - AES_GCM_MAC_SIZE)).all (· == 0) = false →
      ∀ rb3 fk3 p2,
        (update_ratelimit_state toyCrypto rb3 fk3
          (some { nonce := 3, key := 7 }) 1 c3Slab p2).2.2 =
          .error CDS_ERROR_INVALID_RATE_LIMIT_STATE) :=
  claim_C3 toyCrypto
    (fun _ _ _ _ _ h => toyCrypto_dec_sound h)
    (fun _ _ _ _ _ _ _ l1 l2 h1 h2 => toyCrypto_iv_inj l1 l2 h1 h2)
    (fun _ _ _ _ _ h => toyCrypto_mac_len h)
    [0, 0, 0, 0] 7 none 1 (List.replicate 68 0) [0x1234] c3Slab
    { nonce := 2, key := 7 } [0, 0, 0, 0] 9 [0x1111, 0x2222]
    (some { nonce := 3, key := 7 }) c3Slab
    (by decide) rfl rfl

/-! Claim C9 -/

/-- Claim C9: the commitment check computes SHA-256 over the entire decrypted
query buffer, including its leading 32-byte nonce, and compares it byte-wise
against `query_commitment`; on mismatch `handle_call` fails with
`CDS_ERROR_QUERY_COMMITMENT_MISMATCH` for that caller, and the accumulator,
pending-request queue and all other state are unchanged. -/
theorem claim_C9 (C : GcmCrypto) (sha256 sha1 : List Nat → List Nat)
    (rb : List Nat) (fk : Nat) (st : ServerState)
    (cell : Option RatelimitState) (rlSlab : List Nat) (args : CallArgs)
    (rd : List Nat) (caller : Nat) (qb : List Nat) (key : Nat) (pt : List Nat)
    (h0 : ¬ (args.query_phone_count = 0 ∨
      args.query_phone_count > st.cap - st.query_phones.length))
    (h1 : args.queryBytes = some qb)
    (h2 : ¬ qb.length < COMMITMENT_NONCE_SIZE)
    (h3 : ¬ (rd.length ≠ AES_GCM_KEY_SIZE ∨
      (qb.length - COMMITMENT_NONCE_SIZE) % 8 ≠ 0 ∨
      (qb.length - COMMITMENT_NONCE_SIZE) / 8 ≠ args.query_phone_count))
    (h4 : C.keyNew rd = .ok key)
    (h5 : C.decrypt key args.query_iv qb args.query_mac = .ok pt)
    (h6 : sha256 pt ≠ args.query_commitment) :
    handle_call C sha256 sha1 rb fk st cell rlSlab (some args) rd caller =
      ⟨st, cell, rlSlab, .error (CDS_ERROR_QUERY_COMMITMENT_MISMATCH, caller)⟩ := by
  have hdec : decode_request C sha256 st args rd =
      .error CDS_ERROR_QUERY_COMMITMENT_MISMATCH := by
    unfold decode_request
    rw [if_neg h0, h1]
    dsimp only
    rw [if_neg h2, if_neg h3, h4]
    dsimp only
    rw [h5]
    dsimp only
    rw [if_pos h6]
  simp only [handle_call, hdec]

/-- Witness for C9 at a concrete mismatching commitment. -/
theorem claim_C9_witness :
    handle_call toyCrypto (fun _ => [1]) (fun _ => []) [] 0
      { requests := [], query_phones := [], cap := 1, rlEnabled := false }
      none []
      (some { queryBytes := some (List.replicate 40 0), query_iv := [],
              query_mac := List.replicate 16 0, query_commitment := [0],
              query_phone_count := 1, ratelimit_state_uuid := 0,
              rlSliceOk := true }) (List.replicate 32 0) 5 =
      ⟨{ requests := [], query_phones := [], cap := 1, rlEnabled := false },
        none, [], .error (CDS_ERROR_QUERY_COMMITMENT_MISMATCH, 5)⟩ :=
  claim_C9 toyCrypto (fun _ => [1]) (fun _ => []) [] 0
    { requests := [], query_phones := [], cap := 1, rlEnabled := false }
    none []
    { queryBytes := some (List.replicate 40 0), query_iv := [],
      query_mac := List.replicate 16 0, query_commitment := [0],
      query_phone_count := 1, ratelimit_state_uuid := 0, rlSliceOk := true }
    (List.replicate 32 0) 5 (List.replicate 40 0) 0 (List.replicate 40 0)
    (by decide) rfl (by decide) (by decide) rfl rfl (by decide)

/-! Chunking, lookup-loop and reply-loop lemmas for claim C7 -/

theorem chunksOfAux_flatten {m : Nat} (hm : 0 < m) :
    ∀ (fuel : Nat) (l : List Nat), l.length ≤ fuel →
      (chunksOfAux m fuel l).flatten = l := by
  intro fuel
  induction fuel with
  | zero =>
    intro l hl
    rw [Nat.le_zero, List.length_eq_zero] at hl
    subst hl
    rfl
  | succ fuel ih =>
    intro l hl
    cases l with
    | nil => rfl
    | cons x xs =>
      have hdl : (List.drop m (x :: xs)).length ≤ fuel := by
        simp only [List.length_cons] at hl
        simp only [List.length_drop, List.length_cons]
        omega
      show (List.take m (x :: xs) :: chunksOfAux m fuel (List.drop m (x :: xs))).flatten
        = x :: xs
      rw [List.flatten_cons, ih (List.drop m (x :: xs)) hdl, List.take_append_drop]

theorem chunksOf_flatten {m : Nat} (hm : 0 < m) (l : List Nat) :
    (chunksOf m l).flatten = l :=
  chunksOfAux_flatten hm l.length l (Nat.le_refl _)

theorem runLookups_ok {lookup : List Nat → Except SgxStatus (List Nat)}
    (hlook : ∀ c, ∃ out, lookup c = .ok out ∧ out.length = 16 * c.length) :
    ∀ cs : List (List Nat), ∃ buf,
      runLookups lookup cs = (cs, .ok buf) ∧ buf.length = 16 * cs.flatten.length := by
  intro cs
  induction cs with
  | nil => exact ⟨[], rfl, rfl⟩
  | cons c cs ih =>
    obtain ⟨out, hc, hlen⟩ := hlook c
    obtain ⟨buf, hrun, hblen⟩ := ih
    refine ⟨out ++ buf, ?_, ?_⟩
    · simp only [runLookups]
      rw [hc, hrun]
    · rw [List.length_append, hlen, hblen, List.flatten_cons, List.length_append]
      ring

theorem replyLoop_ok {replyFn : Nat → List Nat → Except SgxStatus Unit}
    (hok : ∀ f b, replyFn f b = .ok ()) :
    ∀ (rs : List (Nat × Nat)) (buf : List Nat),
      replyLoop replyFn rs buf = (zipSlices rs buf, .ok ()) := by
  intro rs
  induction rs with
  | nil => intro buf; rfl
  | cons r rs ih =>
    intro buf
    obtain ⟨f, c⟩ := r
    simp only [replyLoop, zipSlices]
    rw [hok f _, ih]

theorem sumCounts_cons (f c : Nat) (rs : List (Nat × Nat)) :
    sumCounts ((f, c) :: rs) = c + sumCounts rs := by
  simp [sumCounts]

theorem zipSlices_fst : ∀ (rs : List (Nat × Nat)) (buf : List Nat),
    (zipSlices rs buf).map Prod.fst = rs.map Prod.fst := by
  intro rs
  induction rs with
  | nil => intro buf; rfl
  | cons r rs ih =>
    intro buf
    obtain ⟨f, c⟩ := r
    simp only [zipSlices, List.map_cons]
    rw [ih]

theorem zipSlices_len : ∀ (rs : List (Nat × Nat)) (buf : List Nat),
    16 * sumCounts rs ≤ buf.length →
    (zipSlices rs buf).map (fun r => r.2.length) = rs.map (fun r => 16 * r.2) := by
  intro rs
  induction rs with
  | nil => intro buf _; rfl
  | cons r rs ih =>
    intro buf hle
    obtain ⟨f, c⟩ := r
    rw [sumCounts_cons] at hle
    simp only [zipSlices, List.map_cons, List.length_take]
    rw [ih (buf.drop (c * 16)) (by simp only [List.length_drop]; omega)]
    congr 1
    omega

theorem zipSlices_flatten : ∀ (rs : List (Nat × Nat)) (buf : List Nat),
    16 * sumCounts rs = buf.length →
    ((zipSlices rs buf).map Prod.snd).flatten = buf := by
  intro rs
  induction rs with
  | nil =>
    intro buf hlen
    simp only [sumCounts, List.map_nil, List.sum_nil, Nat.mul_zero] at hlen
    have : buf = [] := by
      rw [← List.length_eq_zero]
      omega
    rw [this]
    rfl
  | cons r rs ih =>
    intro buf hlen
    obtain ⟨f, c⟩ := r
    rw [sumCounts_cons] at hlen
    simp only [zipSlices, List.map_cons, List.flatten_cons]
    rw [ih (buf.drop (c * 16)) (by simp only [List.length_drop]; omega),
      List.take_append_drop]

theorem replyLoop_abort {replyFn : Nat → List Nat → Except SgxStatus Unit}
    {f c : Nat} {rs2 : List (Nat × Nat)} {e : SgxStatus} :
    ∀ (rs1 : List (Nat × Nat)) (buf : List Nat),
    (∀ x ∈ zipSlices rs1 buf, replyFn x.1 x.2 = .ok ()) →
    replyFn f ((buf.drop (16 * sumCounts rs1)).take (c * 16)) = .error e →
    (replyLoop replyFn (rs1 ++ (f, c) :: rs2) buf).2 = .error e := by
  intro rs1
  induction rs1 with
  | nil =>
    intro buf _ herr
    simp only [sumCounts, List.map_nil, List.sum_nil, Nat.mul_zero,
      List.drop_zero] at herr
    simp only [List.nil_append, replyLoop]
    rw [herr]
  | cons r rs1 ih =>
    intro buf hfirst herr
    obtain ⟨f1, c1⟩ := r
    have hhead : replyFn f1 (buf.take (c1 * 16)) = .ok () := by
      apply hfirst (f1, buf.take (c1 * 16))
      simp only [zipSlices]
      exact List.mem_cons_self _ _
    simp only [List.cons_append, replyLoop]
    rw [hhead]
    show (replyLoop replyFn (rs1 ++ (f, c) :: rs2) (buf.drop (c1 * 16))).2 =
      .error e
    apply ih (buf.drop (c1 * 16))
    · intro x hx
      apply hfirst x
      simp only [zipSlices]
      exact List.mem_cons_of_mem _ hx
    · rw [List.drop_drop]
      rw [sumCounts_cons] at herr
      have harith : c1 * 16 + 16 * sumCounts rs1 = 16 * (c1 + sumCounts rs1) := by
        ring
      rw [harith]
      exact herr

theorem terminate_reduce {mhts : Nat}
    {lookup : List Nat → Except SgxStatus (List Nat)}
    {replyFn : Nat → List Nat → Except SgxStatus Unit} {st : ServerState}
    {a : StopArgs} {buf : List Nat}
    (hc8 : ¬ a.in_phone_count * 8 ≥ 2 ^ 64)
    (hc16 : ¬ a.in_phone_count * 16 ≥ 2 ^ 64)
    (hpo : a.phonesOutside = true) (huo : a.uuidsOutside = true)
    (hq : ¬ st.query_phones.length * 16 ≥ 2 ^ 64)
    (hrun : runLookups lookup (chunksOf mhts st.query_phones) =
      (chunksOf mhts st.query_phones, .ok buf)) :
    terminate mhts lookup replyFn st (some a) =
      ⟨chunksOf mhts st.query_phones,
        (replyLoop replyFn st.requests buf).1,
        (replyLoop replyFn st.requests buf).2⟩ := by
  unfold terminate
  dsimp only
  rw [if_neg hc8, if_neg hc16, hpo, huo]
  simp only [Bool.not_true, Bool.false_eq_true, if_false]
  rw [if_neg hq, hrun]

/-! Claim C7 -/

/-- Claim C7: at the end of a successful `terminate`, every pending request,
in FIFO enqueue order, receives exactly one reply of
`request_phone_count * 16` bytes cut consecutively from the result buffer of
`query_phones.len() * 16` bytes (the split exact because the sum of the
pending counts equals `query_phones.len()`), and any reply failure aborts
termination returning that error. -/
theorem claim_C7 (mhts : Nat) (lookup : List Nat → Except SgxStatus (List Nat))
    (replyFn : Nat → List Nat → Except SgxStatus Unit) (st : ServerState)
    (a : StopArgs) (hm : 0 < mhts)
    (hpo : a.phonesOutside = true) (huo : a.uuidsOutside = true)
    (hc8 : a.in_phone_count * 8 < 2 ^ 64)
    (hc16 : a.in_phone_count * 16 < 2 ^ 64)
    (hq : st.query_phones.length * 16 < 2 ^ 64)
    (hlook : ∀ c, ∃ out, lookup c = .ok out ∧ out.length = 16 * c.length)
    (hsum : sumCounts st.requests = st.query_phones.length)
    (hok : ∀ f b, replyFn f b = .ok ()) :
    ∃ buf, buf.length = 16 * st.query_phones.length ∧
      terminate mhts lookup replyFn st (some a) =
        ⟨chunksOf mhts st.query_phones, zipSlices st.requests buf, .ok ()⟩ ∧
      (zipSlices st.requests buf).map Prod.fst = st.requests.map Prod.fst ∧
      (zipSlices st.requests buf).map (fun r => r.2.length) =
        st.requests.map (fun r => 16 * r.2) ∧
      ((zipSlices st.requests buf).map Prod.snd).flatten = buf ∧
      (∀ (replyFn' : Nat → List Nat → Except SgxStatus Unit)
        (rs1 : List (Nat × Nat)) (f c : Nat) (rs2 : List (Nat × Nat))
        (e : SgxStatus), st.requests = rs1 ++ (f, c) :: rs2 →
        (∀ x ∈ zipSlices rs1 buf, replyFn' x.1 x.2 = .ok ()) →
        replyFn' f ((buf.drop (16 * sumCounts rs1)).take (c * 16)) = .error e →
        (terminate mhts lookup replyFn' st (some a)).result = .error e) := by
  obtain ⟨buf, hrun, hblen⟩ := runLookups_ok hlook (chunksOf mhts st.query_phones)
  have hblen' : buf.length = 16 * st.query_phones.length := by
    rw [hblen, chunksOf_flatten hm]
  have hc8' : ¬ a.in_phone_count * 8 ≥ 2 ^ 64 := by omega
  have hc16' : ¬ a.in_phone_count * 16 ≥ 2 ^ 64 := by omega
  have hq' : ¬ st.query_phones.length * 16 ≥ 2 ^ 64 := by omega
  refine ⟨buf, hblen', ?_, zipSlices_fst st.requests buf,
    zipSlices_len st.requests buf (by omega), zipSlices_flatten st.requests buf (by omega),
    ?_⟩
  · rw [terminate_reduce hc8' hc16' hpo huo hq' hrun, replyLoop_ok hok]
  · intro replyFn' rs1 f c rs2 e hreq hfirst herr
    rw [terminate_reduce hc8' hc16' hpo huo hq' hrun]
    show (replyLoop replyFn' st.requests buf).2 = .error e
    rw [hreq]
    exact replyLoop_abort rs1 buf hfirst herr

/-- Witness for C7 on the empty batch. -/
theorem claim_C7_witness :
    ∃ buf, buf.length = 16 * ([] : List Nat).length ∧
      terminate 1 (fun c => .ok (List.replicate (16 * c.length) 0))
        (fun _ _ => .ok ())
        { requests := [], query_phones := [], cap := 0, rlEnabled := false }
        (some { in_phone_count := 1, phonesOutside := true,
                uuidsOutside := true }) =
        ⟨chunksOf 1 [], zipSlices [] buf, .ok ()⟩ ∧
      (zipSlices [] buf).map Prod.fst = ([] : List (Nat × Nat)).map Prod.fst ∧
      (zipSlices [] buf).map (fun r => r.2.length) =
        ([] : List (Nat × Nat)).map (fun r => 16 * r.2) ∧
      ((zipSlices [] buf).map Prod.snd).flatten = buf ∧
      (∀ (replyFn' : Nat → List Nat → Except SgxStatus Unit)
        (rs1 : List (Nat × Nat)) (f c : Nat) (rs2 : List (Nat × Nat))
        (e : SgxStatus), ([] : List (Nat × Nat)) = rs1 ++ (f, c) :: rs2 →
        (∀ x ∈ zipSlices rs1 buf, replyFn' x.1 x.2 = .ok ()) →
        replyFn' f ((buf.drop (16 * sumCounts rs1)).take (c * 16)) = .error e →
        (terminate 1 (fun c => .ok (List.replicate (16 * c.length) 0)) replyFn'
          { requests := [], query_phones := [], cap := 0, rlEnabled := false }
          (some { in_phone_count := 1, phonesOutside := true,
                  uuidsOutside := true })).result = .error e) :=
  claim_C7 1 (fun c => .ok (List.replicate (16 * c.length) 0)) (fun _ _ => .ok ())
    { requests := [], query_phones := [], cap := 0, rlEnabled := false }
    { in_phone_count := 1, phonesOutside := true, uuidsOutside := true }
    (by decide) rfl rfl (by norm_num) (by norm_num) (by norm_num)
    (fun c => ⟨List.replicate (16 * c.length) 0, rfl, by simp⟩) rfl
    (fun _ _ => rfl)

/-! Digit-rendering lemmas for claim C6 -/

theorem padDigits_length : ∀ (k n : Nat), (padDigits n k).length = k := by
  intro k
  induction k with
  | zero => intro n; rfl
  | succ k ih =>
    intro n
    show (padDigits (n / 10) k ++ [48 + n % 10]).length = k + 1
    rw [List.length_append, ih]
    rfl

theorem padDigits_cons : ∀ (k n : Nat), padDigits n (k + 1) =
    (48 + n / 10 ^ k % 10) :: padDigits (n % 10 ^ k) k := by
  intro k
  induction k with
  | zero =>
    intro n
    show padDigits (n / 10) 0 ++ [48 + n % 10] =
      (48 + n / 10 ^ 0 % 10) :: padDigits (n % 10 ^ 0) 0
    simp [padDigits]
  | succ k ih =>
    intro n
    have h1 : n / 10 / 10 ^ k = n / 10 ^ (k + 1) := by
      rw [Nat.div_div_eq_div_mul]
      congr 1
      ring
    have h2 : n / 10 % 10 ^ k = n % 10 ^ (k + 1) / 10 := by
      conv_rhs => rw [show (10 : Nat) ^ (k + 1) = 10 * 10 ^ k by ring]
      rw [Nat.mod_mul_right_div_self]
    have h3 : n % 10 = n % 10 ^ (k + 1) % 10 := by
      rw [Nat.mod_mod_of_dvd n ⟨10 ^ k, by ring⟩]
    show padDigits (n / 10) (k + 1) ++ [48 + n % 10] =
      (48 + n / 10 ^ (k + 1) % 10) ::
        (padDigits (n % 10 ^ (k + 1) / 10) k ++ [48 + n % 10 ^ (k + 1) % 10])
    rw [ih (n / 10), h1, h2, h3, List.cons_append]

theorem padDigits_zero : ∀ k, padDigits 0 k = List.replicate k 48 := by
  intro k
  induction k with
  | zero => rfl
  | succ k ih =>
    show padDigits 0 k ++ [48 + 0 % 10] = List.replicate (k + 1) 48
    rw [ih, List.replicate_succ']

theorem padDigits_split : ∀ (j k n : Nat), n < 10 ^ k →
    padDigits n (j + k) = List.replicate j 48 ++ padDigits n k := by
  intro j
  induction j with
  | zero =>
    intro k n _
    rw [Nat.zero_add]
    rfl
  | succ j ih =>
    intro k n h
    have hlt : n < 10 ^ (j + k) :=
      Nat.lt_of_lt_of_le h (Nat.pow_le_pow_right (by norm_num) (Nat.le_add_left k j))
    rw [show j + 1 + k = (j + k) + 1 by omega, padDigits_cons,
      Nat.div_eq_of_lt hlt, Nat.mod_eq_of_lt hlt, ih k n h,
      List.replicate_succ, List.cons_append]

theorem decimalAscii_head (p : Nat) (hp : p ≠ 0) :
    ∃ d rest, decimalAscii p = (48 + d) :: rest ∧ 1 ≤ d ∧ d < 10 := by
  have hlow : 10 ^ Nat.log 10 p ≤ p := Nat.pow_log_le_self 10 hp
  have hhigh : p < 10 ^ (Nat.log 10 p + 1) := Nat.lt_pow_succ_log_self (by norm_num) p
  have hdivlt : p / 10 ^ Nat.log 10 p < 10 := by
    apply Nat.div_lt_of_lt_mul
    rw [← Nat.pow_succ]
    exact hhigh
  have hdivge : 1 ≤ p / 10 ^ Nat.log 10 p :=
    (Nat.one_le_div_iff (Nat.pow_pos (by norm_num))).mpr hlow
  refine ⟨p / 10 ^ Nat.log 10 p % 10,
    padDigits (p % 10 ^ Nat.log 10 p) (Nat.log 10 p), ?_, ?_, ?_⟩
  · rw [decimalAscii, padDigits_cons]
  · rw [Nat.mod_eq_of_lt hdivlt]
    exact hdivge
  · exact Nat.mod_lt _ (by norm_num)

/-! Selection-loop lemmas for claim C6 -/

theorem hashAsciiGo_count (sha1 : List Nat → List Nat) :
    ∀ (l : List Nat) (p : Nat) (lz : Bool),
      (hashAsciiGo sha1 l p lz).2 = l.length := by
  intro l
  induction l with
  | nil => intro p lz; rfl
  | cons d rest ih =>
    intro p lz
    simp only [hashAsciiGo, List.length_cons]
    rw [ih]

theorem hashAsciiGo_false (sha1 : List Nat → List Nat) :
    ∀ (l : List Nat) (p : Nat), (hashAsciiGo sha1 l p false).1 = p := by
  intro l
  induction l with
  | nil => intro p; rfl
  | cons d rest ih =>
    intro p
    simp only [hashAsciiGo, Bool.false_and, Bool.false_eq_true, if_false]
    exact ih p

theorem hashAsciiGo_zeros (sha1 : List Nat → List Nat) :
    ∀ (k : Nat) (l : List Nat) (p : Nat),
      (hashAsciiGo sha1 (List.replicate k 48 ++ l) p true).1 =
        (hashAsciiGo sha1 l p true).1 := by
  intro k
  induction k with
  | zero => intro l p; rfl
  | succ k ih =>
    intro l p
    rw [List.replicate_succ, List.cons_append]
    simp only [hashAsciiGo, beq_self_eq_true, Bool.not_true, Bool.and_false,
      Bool.true_and, Bool.and_true, Bool.false_eq_true, if_false]
    exact ih l p

theorem hashAsciiGo_first (sha1 : List Nat → List Nat) (d : Nat)
    (rest : List Nat) (p : Nat) (hd : d ≠ 48) :
    (hashAsciiGo sha1 (d :: rest) p true).1 = hashTruncated sha1 (d :: rest) := by
  have hbeq : (d == 48) = false := by simpa using hd
  simp only [hashAsciiGo, hbeq, Bool.not_false, Bool.true_and, Bool.and_false,
    if_true]
  exact hashAsciiGo_false sha1 rest _

/-! Claim C6 -/

/-- Claim C6: for every phone different from 0, `hash_query_phone` replaces
the phone with the first 8 bytes (read as a native-endian `u64`) of
`SHA1("+" ++ decimal(phone))` where the decimal rendering has no leading
zeros, and the computation performs exactly 20 SHA-1 evaluations regardless
of the phone's value; for phone 0 the value is left unchanged (and the 20
evaluations still happen).  The SHA-1 compression is an oracle parameter. -/
theorem claim_C6 (sha1 : List Nat → List Nat) (p : Nat) (hp : p < 2 ^ 64) :
    (hash_query_phone sha1 p).2 = 20 ∧
    (p ≠ 0 → (hash_query_phone sha1 p).1 =
        u64fromLE ((sha1 (43 :: decimalAscii p)).take 8) ∧
      (decimalAscii p).head? ≠ some 48) ∧
    (p = 0 → (hash_query_phone sha1 p).1 = p) := by
  refine ⟨?_, ?_, ?_⟩
  · show (hashAsciiGo sha1 (padDigits p 20) p true).2 = 20
    rw [hashAsciiGo_count, padDigits_length]
  · intro hne
    have hlog : Nat.log 10 p < 20 :=
      Nat.log_lt_of_lt_pow hne (Nat.lt_trans hp (by norm_num))
    have hhigh : p < 10 ^ (Nat.log 10 p + 1) :=
      Nat.lt_pow_succ_log_self (by norm_num) p
    obtain ⟨d, rest, hdec, hd1, hd10⟩ := decimalAscii_head p hne
    have h20 : (20 : Nat) = (20 - (Nat.log 10 p + 1)) + (Nat.log 10 p + 1) := by
      omega
    have hsplit : padDigits p 20 =
        List.replicate (20 - (Nat.log 10 p + 1)) 48 ++ decimalAscii p := by
      conv_lhs => rw [h20]
      rw [padDigits_split _ _ _ hhigh, decimalAscii]
    constructor
    · show (hashAsciiGo sha1 (padDigits p 20) p true).1 = _
      rw [hsplit, hashAsciiGo_zeros, hdec,
        hashAsciiGo_first sha1 _ _ _ (by omega), ← hdec]
      rfl
    · rw [hdec]
      simp only [List.head?_cons, ne_eq, Option.some.injEq]
      omega
  · intro h0
    subst h0
    show (hashAsciiGo sha1 (padDigits 0 20) 0 true).1 = 0
    rw [padDigits_zero]
    have hz := hashAsciiGo_zeros sha1 20 [] 0
    rw [List.append_nil] at hz
    rw [hz]
    rfl

/-- Witness for C6 at the phone value 5 and the identity SHA-1 oracle. -/
theorem claim_C6_witness :
    (hash_query_phone (fun l => l) 5).2 = 20 ∧
    ((5 : Nat) ≠ 0 → (hash_query_phone (fun l => l) 5).1 =
        u64fromLE (((fun (l : List Nat) => l) (43 :: decimalAscii 5)).take 8) ∧
      (decimalAscii 5).head? ≠ some 48) ∧
    ((5 : Nat) = 0 → (hash_query_phone (fun l => l) 5).1 = 5) :=
  claim_C6 (fun l => l) 5 (by norm_num)

end CDS
